import Mathlib

/-!
Shallow embedding of `extra_run_perf_eval.py`.

The script walks a directory of `.txt` run logs, extracts run records with a
per-line state machine (`process_files`), assembles them into a table whose
`Timestamp` column is parsed with the fixed format `%Y-%m-%d_%H-%M-%S`
(unparseable values coerced to missing) and sorted by that column, and the
plotting code derives a per-instance `Relative Change` column via
`groupby("Instance")["Objective Function Value"].pct_change()`.

Python strings are embedded as `List Char`, Python floats as `ℚ` (the logs
only carry finite decimal literals; Python's `float` additionally accepts
`inf`/`nan` spellings, which have no rational counterpart — the predicate
`isNonFiniteFloatLit` marks them so theorems can exclude them explicitly),
and exceptions as `Except String`.
-/

/-- Python strings are embedded as lists of characters. -/
abbrev Str := List Char

/-- Embed a Lean string literal as a `Str`. -/
def lit (s : String) : Str := s.toList

/-- The characters removed by Python's `str.strip()` (ASCII whitespace;
the rarer Unicode whitespace code points never occur in these logs). -/
def isPySpace (c : Char) : Bool :=
  c == ' ' || c == '\t' || c == '\n' || c == '\r' || c == '\x0b' || c == '\x0c'

/-- Python `str.strip()`: drop leading and trailing whitespace. -/
def pstrip (s : Str) : Str :=
  ((s.dropWhile isPySpace).reverse.dropWhile isPySpace).reverse

/-- Python `str.split(sep)` for a one-character separator: split at every
occurrence of the separator, keeping empty pieces (`"".split(x) == [""]`). -/
def splitOnChar (c : Char) : Str → List Str
  | [] => [[]]
  | x :: xs =>
    if x == c then [] :: splitOnChar c xs
    else
      match splitOnChar c xs with
      | [] => [[x]]
      | y :: ys => (x :: y) :: ys

/-- Python's `needle in haystack`: contiguous-substring containment. -/
def containsSub (needle : Str) : Str → Bool
  | [] => needle.isEmpty
  | x :: xs => List.isPrefixOf needle (x :: xs) || containsSub needle xs

/-- ASCII decimal digit test (the digits produced by the solver logs). -/
def isAsciiDigit (c : Char) : Bool := '0' ≤ c && c ≤ '9'

/-- Numeric value of an ASCII digit. -/
def digVal (c : Char) : Nat := c.toNat - 48

/-- Value of a digit string (underscores already filtered out). -/
def natOfDigits (s : Str) : Nat := s.foldl (fun a c => a * 10 + digVal c) 0

/-- No two consecutive underscores. -/
def noDoubleUnderscore : Str → Bool
  | [] => true
  | [_] => true
  | a :: b :: r => !(a == '_' && b == '_') && noDoubleUnderscore (b :: r)

/-- A valid Python digit group: nonempty, made of digits and underscores,
beginning and ending with a digit, with no underscore run (so every
underscore sits between two digits, as `float` requires). -/
def ugroupOk (s : Str) : Bool :=
  match s with
  | [] => false
  | c :: _ =>
      isAsciiDigit c && isAsciiDigit (s.getLastD '0') &&
      s.all (fun x => isAsciiDigit x || x == '_') && noDoubleUnderscore s

/-- An empty group or a valid digit group (integer/fraction parts of a float
literal may each be empty as long as one of them is not). -/
def ugroupOrEmpty (s : Str) : Bool := s.isEmpty || ugroupOk s

/-- Keep only the digits of a group (drop underscores). -/
def digitsOnly (s : Str) : Str := s.filter isAsciiDigit

/-- Parse the exponent part of a float literal (after the `e`). -/
def parseExp (s : Str) : Option Int :=
  match s with
  | '+' :: r => if ugroupOk r then some ((natOfDigits (digitsOnly r) : Int)) else none
  | '-' :: r => if ugroupOk r then some (-(natOfDigits (digitsOnly r) : Int)) else none
  | r => if ugroupOk r then some ((natOfDigits (digitsOnly r) : Int)) else none

/-- Parse the unsigned mantissa of a float literal — `digits`,
`digits.digits`, `digits.` or `.digits`, with Python's underscore rules —
into its integer-part and fraction-part digit strings. -/
def mantissaParts (s : Str) : Option (Str × Str) :=
  match splitOnChar '.' s with
  | [i] => if ugroupOk i then some (digitsOnly i, []) else none
  | [i, f] =>
    if ugroupOrEmpty i && ugroupOrEmpty f && !(i.isEmpty && f.isEmpty) then
      some (digitsOnly i, digitsOnly f)
    else none
  | _ => none

/-- The rational value `sg * ip.fp * 10 ^ ex` of a parsed float literal,
computed with `mkRat` over plain natural/integer arithmetic (the `Rat`
field operations are `@[irreducible]` and would block kernel evaluation). -/
def floatVal (sg : Int) (ip fp : Str) (ex : Int) : ℚ :=
  let ds := natOfDigits (ip ++ fp)
  let e : Int := ex - (fp.length : Int)
  if 0 ≤ e then mkRat (sg * ((ds * 10 ^ e.toNat : Nat) : Int)) 1
  else mkRat (sg * (ds : Int)) (10 ^ (-e).toNat)

/-- Python `float(s)` restricted to finite values: strip whitespace, optional
sign, decimal mantissa, optional case-insensitive exponent.  Returns `none`
when `float` would raise `ValueError`.  Decimal literals denote exact
rationals here (the usual idealisation of binary floating point); the
`inf`/`infinity`/`nan` spellings accepted by `float` lie outside the
rational value model — they are flagged separately by `isNonFiniteFloatLit`
and never occur in these logs. -/
def parseFloat (s : Str) : Option ℚ :=
  match (pstrip s).map Char.toLower with
  | '+' :: r => parseFloatCore r 1
  | '-' :: r => parseFloatCore r (-1)
  | r => parseFloatCore r 1
where
  /-- Sign-stripped body of `parseFloat`. -/
  parseFloatCore (u : Str) (sg : Int) : Option ℚ :=
    match splitOnChar 'e' u with
    | [m] => (mantissaParts m).map (fun p => floatVal sg p.1 p.2 0)
    | [m, ex] =>
      match mantissaParts m, parseExp ex with
      | some p, some e => some (floatVal sg p.1 p.2 e)
      | _, _ => none
    | _ => none

/-- The `inf`/`infinity`/`nan` spellings `float` accepts but the rational
model cannot represent. -/
def isNonFiniteFloatLit (s : Str) : Bool :=
  match (pstrip s).map Char.toLower with
  | '+' :: r => r == lit "inf" || r == lit "infinity" || r == lit "nan"
  | '-' :: r => r == lit "inf" || r == lit "infinity" || r == lit "nan"
  | r => r == lit "inf" || r == lit "infinity" || r == lit "nan"

/-- Character predicates of the regex `\d{4}-\d{2}-\d{2}_\d{2}-\d{2}-\d{2}`
(a fixed-length pattern, so `re.search` needs no backtracking). -/
def tsShape : List (Char → Bool) :=
  [isAsciiDigit, isAsciiDigit, isAsciiDigit, isAsciiDigit, (fun c => c == '-'),
   isAsciiDigit, isAsciiDigit, (fun c => c == '-'), isAsciiDigit, isAsciiDigit,
   (fun c => c == '_'), isAsciiDigit, isAsciiDigit, (fun c => c == '-'),
   isAsciiDigit, isAsciiDigit, (fun c => c == '-'), isAsciiDigit, isAsciiDigit]

/-- Does the timestamp pattern match at the start of `s`? -/
def matchShape (s : Str) : Bool :=
  decide (19 ≤ s.length) && (tsShape.zip s).all (fun p => p.1 p.2)

/-- `timestamp_pattern.search`: leftmost match of the timestamp pattern. -/
def findTimestamp : Str → Option Str
  | [] => none
  | c :: r => if matchShape (c :: r) then some ((c :: r).take 19) else findTimestamp r

/-- `match.group(1) if match else "Unknown"` applied to the filename stem. -/
def tsOf (stem : Str) : Str := (findTimestamp stem).getD (lit "Unknown")

/-- Leap-year rule used by the Gregorian calendar. -/
def isLeapYear (y : Nat) : Bool := (y % 4 == 0 && y % 100 != 0) || y % 400 == 0

/-- Days in a month. -/
def daysInMonth (y mo : Nat) : Nat :=
  if mo == 2 then (if isLeapYear y then 29 else 28)
  else if mo == 4 || mo == 6 || mo == 9 || mo == 11 then 30
  else 31

/-- `pd.to_datetime(s, format="%Y-%m-%d_%H-%M-%S", errors='coerce')` for one
value: `none` models `NaT`.  Accepts exactly the 19-character zero-padded
shape with calendar-valid fields; the parsed instant is encoded as a single
natural number that orders chronologically.  (The nanosecond representable
range of pandas timestamps is not modelled; the years appearing in these
logs are well inside it.) -/
def parseTs (s : Str) : Option Nat :=
  if s.length == 19 && matchShape s then
    let y := natOfDigits (s.take 4)
    let mo := natOfDigits ((s.drop 5).take 2)
    let da := natOfDigits ((s.drop 8).take 2)
    let h := natOfDigits ((s.drop 11).take 2)
    let mi := natOfDigits ((s.drop 14).take 2)
    let se := natOfDigits ((s.drop 17).take 2)
    if 1 ≤ mo && mo ≤ 12 && 1 ≤ da && da ≤ daysInMonth y mo &&
        h ≤ 23 && mi ≤ 59 && se ≤ 59 then
      some (((((y * 13 + mo) * 32 + da) * 24 + h) * 60 + mi) * 60 + se)
    else none
  else none

deriving instance DecidableEq for Except

/-- One extracted run record (one row of the table built by
`process_files`). `feasible = none` models the Python default `False`. -/
structure Record where
  instName : Str
  file : Str
  timestamp : Str
  feasible : Option Str
  objective : ℚ
  execTime : ℚ
deriving DecidableEq

/-- The four per-record working variables of the scan loop.
`instName = none` models Python `None`; `feasVal = none` models `False`. -/
structure PState where
  instName : Option Str
  feasVal : Option Str
  objVal : ℚ
  execTime : ℚ
deriving DecidableEq

/-- The loop's initial/reset values (`None`, `False`, `0`, `0`). -/
def initPState : PState := ⟨none, none, 0, 0⟩

/-- Python truthiness of `instance_name`: `None` and `""` are falsy. -/
def truthy : Option Str → Bool
  | none => false
  | some s => !s.isEmpty

/-- `"./"`. -/
def dotSlash : Str := lit "./"

/-- The feasibility line marker. -/
def feasKey : Str := lit "Is solution feasible:"

/-- The objective line marker. -/
def objKey : Str := lit "Objective function value:"

/-- The execution-time line marker. -/
def timeKey : Str := lit "Execution time:"

/-- The `ValueError` raised by `float` on malformed text. -/
def floatErr : String := "ValueError: could not convert string to float"

/-- One iteration of the scan loop of `process_files`: strip the line, then
the `if`/`elif` chain.  A `./`-line keeps the segment after the last `/`;
a feasibility line keeps `split(":")[1].strip()`; an objective line parses
`split(":")[1].strip()` as a float; an execution-time line parses
`split(":")[1].strip().split(" ")[0]` and, when `instance_name` is truthy,
emits a record and resets all four working fields. -/
def processLine (stem ts : Str) (st : PState) (raw : Str) :
    Except String (PState × Option Record) :=
  let line := pstrip raw
  if List.isPrefixOf dotSlash line then
    .ok ({ st with instName := some ((splitOnChar '/' line).getLastD []) }, none)
  else if containsSub feasKey line then
    .ok ({ st with feasVal := some (pstrip ((splitOnChar ':' line).getD 1 [])) }, none)
  else if containsSub objKey line then
    match parseFloat (pstrip ((splitOnChar ':' line).getD 1 [])) with
    | none => .error floatErr
    | some v => .ok ({ st with objVal := v }, none)
  else if containsSub timeKey line then
    match parseFloat ((splitOnChar ' ' (pstrip ((splitOnChar ':' line).getD 1 []))).getD 0 []) with
    | none => .error floatErr
    | some t =>
      if truthy st.instName then
        .ok (initPState, some ⟨st.instName.getD [], stem, ts, st.feasVal, st.objVal, t⟩)
      else
        .ok ({ st with execTime := t }, none)
  else
    .ok (st, none)

/-- The scan loop over the lines of one file, threading the working state and
accumulating emitted records in order. -/
def processLines (stem ts : Str) : PState → List Str → Except String (PState × List Record)
  | st, [] => .ok (st, [])
  | st, l :: ls =>
    match processLine stem ts st l with
    | .error e => .error e
    | .ok (st', r) =>
      match processLines stem ts st' ls with
      | .error e => .error e
      | .ok (st'', rs) => .ok (st'', r.toList ++ rs)

/-- The records `process_files` extracts from one file, given the filename
stem and the file's lines. -/
def processFile (stem : Str) (lines : List Str) : Except String (List Record) :=
  match processLines stem (tsOf stem) initPState lines with
  | .error e => .error e
  | .ok (_, rs) => .ok rs

/-- The records emitted by a scan-loop run (an error run emits none). -/
def emittedRecs (r : Except String (PState × List Record)) : List Record :=
  match r with
  | .ok p => p.2
  | .error _ => []

/-- All records collected over the discovered files, in file order then line
order (the order of `data.append` in the source). -/
def collectRecords : List (Str × List Str) → Except String (List Record)
  | [] => .ok []
  | (stem, lines) :: fs =>
    match processFile stem lines with
    | .error e => .error e
    | .ok rs =>
      match collectRecords fs with
      | .error e => .error e
      | .ok rest => .ok (rs ++ rest)

/-- A table row pairs a record with its coerced `Timestamp` value
(`none` models `NaT`). -/
abbrev Table := List (Record × Option Nat)

/-- `sort_values(by="Timestamp")` comparison: ascending, missing values
last (`na_position='last'`). -/
def tsLeB : Option Nat → Option Nat → Bool
  | _, none => true
  | none, some _ => false
  | some a, some b => a ≤ b

/-- Insert one row into a run sorted by `tsLeB`. -/
def insertRow (x : Record × Option Nat) : Table → Table
  | [] => [x]
  | y :: ys => if tsLeB x.2 y.2 then x :: y :: ys else y :: insertRow x ys

/-- The table sorted ascending by coerced timestamp, missing values last.
The source uses `sort_values`' default `kind='quicksort'`, whose ordering of
rows with equal keys is unspecified; this model fixes one admissible order. -/
def sortRows : Table → Table
  | [] => []
  | x :: xs => insertRow x (sortRows xs)

/-- The tail of `process_files`: `pd.DataFrame(data)` followed by the
`Timestamp` coercion and the sort.  On an empty record list
`pd.DataFrame([])` has no columns at all, so `df["Timestamp"]` raises
`KeyError` before anything else happens. -/
def assembleTable (recs : List Record) : Except String Table :=
  match recs with
  | [] => .error "KeyError: Timestamp"
  | _ => .ok (sortRows (recs.map (fun r => (r, parseTs r.timestamp))))

/-- The whole of `process_files`, over the discovered files given as
(stem, lines) pairs in discovery order. -/
def process_files (files : List (Str × List Str)) : Except String Table :=
  match collectRecords files with
  | .error e => .error e
  | .ok recs => assembleTable recs

/-- The objective value of the last record of instance `inst` in `pre`
(the chronologically previous point once rows are in table order). -/
def lastObjOf (inst : Str) (pre : List Record) : Option ℚ :=
  ((pre.filter (fun r => r.instName == inst)).getLast?).map (fun r => r.objective)

/-- `pct_change`'s formula `(curr - prev) / prev`, computed with `divInt`
over numerators and denominators so that it kernel-evaluates (the `Rat`
field operations are `@[irreducible]`); `pctDelta_eq` identifies it with
the field expression. -/
def pctDelta (c p : ℚ) : ℚ :=
  Rat.divInt (c.num * (p.den : Int) - (c.den : Int) * p.num) ((c.den : Int) * p.num)

/-- Worker for `relativeChange`: `pre` is the already-traversed prefix. -/
def relChangeFrom (pre : List Record) : List Record → List (Option ℚ)
  | [] => []
  | r :: rs =>
    (match lastObjOf r.instName pre with
     | none => none
     | some p => some (pctDelta r.objective p)) :: relChangeFrom (pre ++ [r]) rs

/-- The derived `Relative Change` column:
`dataframe.groupby("Instance")["Objective Function Value"].pct_change()`.
`groupby` preserves the row order of the table inside each group, so entry
`i` is `(curr - prev) / prev` against the nearest earlier row of the same
instance, and `none` (`NaN`) when there is no such row. -/
def relativeChange (rows : List Record) : List (Option ℚ) :=
  relChangeFrom [] rows

/-- Modelled from the spec's words (for comparison with the source): "text
after the colon" read as everything after the first colon. -/
def specAfterFirstColon : Str → Str
  | [] => []
  | c :: r => if c = ':' then r else specAfterFirstColon r

/-- What the source's `split(":")[1]` keeps: the text strictly between the
first colon and the following colon (or the end of the line). -/
def betweenFirstColons (l : Str) : Str :=
  (specAfterFirstColon l).takeWhile (fun x => x != ':')

/-- The spec's "segment after the last `/`": drop everything up to and
including the last slash (the whole string when there is no slash). -/
def afterLastSlash : Str → Str
  | [] => []
  | c :: r =>
    if '/' ∈ r then afterLastSlash r
    else if c == '/' then r
    else c :: r

/-- The spec's "first space-delimited token": everything before the first
space character. -/
def firstSpaceToken (s : Str) : Str := s.takeWhile (fun c => c != ' ')

/-- Modelled from the spec's words (for comparison with the source): "first
whitespace-delimited token", treating every whitespace character as a
separator rather than only the space character. -/
def specFirstWhitespaceToken (s : Str) : Str := s.takeWhile (fun c => !isPySpace c)

/-- A line that installs a non-empty (truthy) instance name: after
stripping it starts with `./` and the segment after its last `/` is
non-empty. -/
def setsNonemptyInst (l : Str) : Bool :=
  List.isPrefixOf dotSlash (pstrip l) && !(afterLastSlash (pstrip l)).isEmpty

/-- The numeric text the source extracts from an objective line. -/
def objText (line : Str) : Str := pstrip ((splitOnChar ':' line).getD 1 [])

/-- The numeric text the source extracts from an execution-time line. -/
def timeText (line : Str) : Str :=
  (splitOnChar ' ' (pstrip ((splitOnChar ':' line).getD 1 []))).getD 0 []

theorem splitOnChar_ne_nil (c : Char) (l : Str) : splitOnChar c l ≠ [] := by
  induction l with
  | nil => simp [splitOnChar]
  | cons x xs ih =>
    simp only [splitOnChar]
    split
    · simp
    · cases h : splitOnChar c xs with
      | nil => simp [h]
      | cons y ys => simp [h]

theorem splitOnChar_getD_zero (c : Char) (l : Str) :
    (splitOnChar c l).getD 0 [] = l.takeWhile (fun x => x != c) := by
  induction l with
  | nil => simp [splitOnChar]
  | cons x xs ih =>
    by_cases hx : x == c
    · simp [splitOnChar, hx, List.takeWhile, bne]
    · have hxb : (x == c) = false := by revert hx; cases (x == c) <;> simp
      cases h : splitOnChar c xs with
      | nil => exact absurd h (splitOnChar_ne_nil c xs)
      | cons y ys =>
        rw [h] at ih
        have e1 : splitOnChar c (x :: xs) = (x :: y) :: ys := by
          simp [splitOnChar, hxb, h]
        have e3 : (y :: ys).getD 0 [] = y := rfl
        rw [e3] at ih
        have hp : (x != c) = true := by simp [bne, hxb]
        rw [e1]
        have e2 : ((x :: y) :: ys).getD 0 [] = x :: y := rfl
        rw [e2]
        simp [List.takeWhile, hp, ih]

theorem mem_of_isPrefixOf (a : Char) : ∀ (n l : Str), List.isPrefixOf n l = true → a ∈ n → a ∈ l := by
  intro n
  induction n with
  | nil => intro l _ ha; exact absurd ha (List.not_mem_nil a)
  | cons x ns ih =>
    intro l h ha
    cases l with
    | nil => simp [List.isPrefixOf] at h
    | cons y ls =>
      simp only [List.isPrefixOf, Bool.and_eq_true, beq_iff_eq] at h
      rcases List.mem_cons.mp ha with rfl | hmem
      · exact List.mem_cons.mpr (Or.inl h.1)
      · exact List.mem_cons.mpr (Or.inr (ih ls h.2 hmem))

theorem mem_of_containsSub (a : Char) (n : Str) (l : Str)
    (h : containsSub n l = true) (ha : a ∈ n) : a ∈ l := by
  induction l with
  | nil =>
    simp only [containsSub, List.isEmpty_iff] at h
    subst h; exact absurd ha (List.not_mem_nil a)
  | cons x xs ih =>
    simp only [containsSub, Bool.or_eq_true] at h
    rcases h with h | h
    · exact mem_of_isPrefixOf a n (x :: xs) h ha
    · exact List.mem_cons_of_mem x (ih h)

theorem splitOnChar_getD_one (l : Str) (h : ':' ∈ l) :
    (splitOnChar ':' l).getD 1 [] = betweenFirstColons l := by
  induction l with
  | nil => cases h
  | cons x xs ih =>
    by_cases hx : x = ':'
    · subst hx
      have e1 : splitOnChar ':' (':' :: xs) = [] :: splitOnChar ':' xs := by
        simp [splitOnChar]
      rw [e1]
      have e2 : (([] : Str) :: splitOnChar ':' xs).getD 1 [] =
          (splitOnChar ':' xs).getD 0 [] := rfl
      rw [e2, splitOnChar_getD_zero]
      simp [betweenFirstColons, specAfterFirstColon]
    · have hxb : (x == ':') = false := beq_false_of_ne hx
      have hmem : ':' ∈ xs := by
        rcases List.mem_cons.mp h with h1 | h1
        · exact absurd h1.symm hx
        · exact h1
      cases hsp : splitOnChar ':' xs with
      | nil => exact absurd hsp (splitOnChar_ne_nil _ xs)
      | cons y ys =>
        rw [hsp] at ih
        have e1 : splitOnChar ':' (x :: xs) = (x :: y) :: ys := by
          simp [splitOnChar, hxb, hsp]
        rw [e1]
        have e2 : ((x :: y) :: ys).getD 1 [] = (y :: ys).getD 1 [] := rfl
        rw [e2, ih hmem]
        simp [betweenFirstColons, specAfterFirstColon, hx]

theorem takeWhile_ne_colon_eq_self {l : Str} (h : ':' ∉ l) :
    l.takeWhile (fun x => x != ':') = l := by
  induction l with
  | nil => rfl
  | cons x xs ih =>
    have hx : (x != ':') = true := by
      simp only [bne_iff_ne, ne_eq]
      intro hq; exact h (hq ▸ List.mem_cons_self x xs)
    simp only [List.takeWhile, hx]
    rw [ih (fun hm => h (List.mem_cons_of_mem x hm))]

theorem betweenFirstColons_of_single {l : Str} (h : ':' ∉ specAfterFirstColon l) :
    betweenFirstColons l = specAfterFirstColon l :=
  takeWhile_ne_colon_eq_self h

theorem splitOnChar_of_not_mem {c : Char} {l : Str} (h : c ∉ l) : splitOnChar c l = [l] := by
  induction l with
  | nil => rfl
  | cons x xs ih =>
    have hxb : (x == c) = false := beq_false_of_ne (fun hq => h (hq ▸ List.mem_cons_self x xs))
    have hxs : splitOnChar c xs = [xs] := ih (fun hm => h (List.mem_cons_of_mem x hm))
    simp [splitOnChar, hxb, hxs]

theorem splitOnChar_two_le {c : Char} {l : Str} (h : c ∈ l) : 2 ≤ (splitOnChar c l).length := by
  induction l with
  | nil => cases h
  | cons x xs ih =>
    by_cases hx : x = ':'
    all_goals by_cases hxc : x == c
    all_goals simp only [splitOnChar, hxc, if_true, Bool.false_eq_true, if_false]
    · have := splitOnChar_ne_nil c xs
      cases hs : splitOnChar c xs with
      | nil => exact absurd hs this
      | cons y ys => simp
    · have hmem : c ∈ xs := by
        rcases List.mem_cons.mp h with h1 | h1
        · exact absurd (beq_iff_eq.mpr h1.symm) (by simp [hxc])
        · exact h1
      cases hs : splitOnChar c xs with
      | nil => exact absurd hs (splitOnChar_ne_nil c xs)
      | cons y ys =>
        have := ih hmem
        rw [hs] at this
        simpa using this
    · have := splitOnChar_ne_nil c xs
      cases hs : splitOnChar c xs with
      | nil => exact absurd hs this
      | cons y ys => simp
    · have hmem : c ∈ xs := by
        rcases List.mem_cons.mp h with h1 | h1
        · exact absurd (beq_iff_eq.mpr h1.symm) (by simp [hxc])
        · exact h1
      cases hs : splitOnChar c xs with
      | nil => exact absurd hs (splitOnChar_ne_nil c xs)
      | cons y ys =>
        have := ih hmem
        rw [hs] at this
        simpa using this

theorem afterLastSlash_of_not_mem {l : Str} (h : '/' ∉ l) : afterLastSlash l = l := by
  induction l with
  | nil => rfl
  | cons x xs ih =>
    have h1 : '/' ∉ xs := fun hm => h (List.mem_cons_of_mem x hm)
    have hxb : (x == '/') = false :=
      beq_false_of_ne (fun hq => h (hq ▸ List.mem_cons_self x xs))
    simp [afterLastSlash, h1, hxb]

theorem splitOnChar_getLastD (l : Str) :
    (splitOnChar '/' l).getLastD [] = afterLastSlash l := by
  induction l with
  | nil => rfl
  | cons x xs ih =>
    by_cases hm : '/' ∈ xs
    · by_cases hx : x == '/'
      · have e1 : splitOnChar '/' (x :: xs) = [] :: splitOnChar '/' xs := by
          simp [splitOnChar, hx]
        rw [e1, List.getLastD_cons, ih]
        simp [afterLastSlash, hm]
      · cases hs : splitOnChar '/' xs with
        | nil => exact absurd hs (splitOnChar_ne_nil _ xs)
        | cons y ys =>
          have e1 : splitOnChar '/' (x :: xs) = (x :: y) :: ys := by
            simp [splitOnChar, hx, hs]
          have h2 : ys ≠ [] := by
            have h3 := splitOnChar_two_le hm
            rw [hs] at h3
            intro hys; subst hys; simp at h3
          rw [e1, List.getLastD_cons]
          have e3 : ys.getLastD (x :: y) = ys.getLastD y := by
            cases ys with
            | nil => exact absurd rfl h2
            | cons z zs => rw [List.getLastD_cons, List.getLastD_cons]
          rw [hs, List.getLastD_cons] at ih
          rw [e3, ih]
          simp [afterLastSlash, hm]
    · have hs : splitOnChar '/' xs = [xs] := splitOnChar_of_not_mem hm
      by_cases hx : x == '/'
      · have e1 : splitOnChar '/' (x :: xs) = [] :: [xs] := by
          simp [splitOnChar, hx, hs]
        rw [e1]
        have e2 : (([] : Str) :: [xs]).getLastD [] = xs := by
          simp [List.getLastD_cons]
        rw [e2]
        simp [afterLastSlash, hm, hx]
      · have e1 : splitOnChar '/' (x :: xs) = [x :: xs] := by
          simp [splitOnChar, hx, hs]
        rw [e1]
        simp [afterLastSlash, hm, hx, List.getLastD_cons]

theorem afterLastSlash_eq_nil {l : Str} (h : l.getLast? = some '/') :
    afterLastSlash l = [] := by
  induction l with
  | nil => simp at h
  | cons x xs ih =>
    cases xs with
    | nil =>
      simp [List.getLast?] at h
      subst h
      simp [afterLastSlash]
    | cons y ys =>
      rw [List.getLast?_cons_cons] at h
      have hmem : '/' ∈ y :: ys := List.mem_of_getLast?_eq_some h
      have e : afterLastSlash (x :: y :: ys) = afterLastSlash (y :: ys) := by
        simp [afterLastSlash, hmem]
      rw [e, ih h]

theorem pctDelta_eq (c p : ℚ) : pctDelta c p = (c - p) / p := by
  rcases eq_or_ne p 0 with rfl | hp
  · simp [pctDelta]
  · have hcd : ((c.den : ℚ)) ≠ 0 := Nat.cast_ne_zero.mpr c.den_nz
    have hpd : ((p.den : ℚ)) ≠ 0 := Nat.cast_ne_zero.mpr p.den_nz
    have hpn : (p.num : ℚ) ≠ 0 := by
      exact_mod_cast fun h0 => hp (Rat.num_eq_zero.mp (by exact_mod_cast h0))
    have hc : c * (c.den : ℚ) = (c.num : ℚ) :=
      (eq_div_iff hcd).mp (Rat.num_div_den c).symm
    have hpw : p * (p.den : ℚ) = (p.num : ℚ) :=
      (eq_div_iff hpd).mp (Rat.num_div_den p).symm
    rw [pctDelta, Rat.divInt_eq_div]
    push_cast
    rw [div_eq_div_iff (mul_ne_zero hcd hpn) hp]
    rw [← hc, ← hpw]; ring

theorem splitOnChar_getElem_one (l : Str) (h : ':' ∈ l) :
    (splitOnChar ':' l)[1]?.getD [] = betweenFirstColons l := by
  rw [← List.getD_eq_getElem?_getD]
  exact splitOnChar_getD_one l h

theorem splitOnChar_getElem_zero (c : Char) (l : Str) :
    (splitOnChar c l)[0]?.getD [] = l.takeWhile (fun x => x != c) := by
  rw [← List.getD_eq_getElem?_getD]
  exact splitOnChar_getD_zero c l

theorem splitOnChar_getLast_afterLastSlash (l : Str) :
    (splitOnChar '/' l).getLast?.getD [] = afterLastSlash l := by
  rw [← List.getLastD_eq_getLast?]
  exact splitOnChar_getLastD l

theorem processLine_inst (stem ts : Str) (st : PState) (l : Str)
    (hs : pstrip l = l) (hd : List.isPrefixOf dotSlash l = true) :
    processLine stem ts st l =
      .ok ({ st with instName := some (afterLastSlash l) }, none) := by
  simp [processLine, hs, hd, splitOnChar_getLast_afterLastSlash]

theorem processLine_feas (stem ts : Str) (st : PState) (l : Str)
    (hs : pstrip l = l) (hd : List.isPrefixOf dotSlash l = false)
    (hk : containsSub feasKey l = true) :
    processLine stem ts st l =
      .ok ({ st with feasVal := some (pstrip (betweenFirstColons l)) }, none) := by
  have hcolon : ':' ∈ l := mem_of_containsSub ':' feasKey l hk (by decide)
  simp [processLine, hs, hd, hk, splitOnChar_getElem_one l hcolon]

theorem processLine_obj (stem ts : Str) (st : PState) (l : Str) (v : ℚ)
    (hs : pstrip l = l) (hd : List.isPrefixOf dotSlash l = false)
    (hkf : containsSub feasKey l = false) (hko : containsSub objKey l = true)
    (hv : parseFloat (pstrip (betweenFirstColons l)) = some v) :
    processLine stem ts st l = .ok ({ st with objVal := v }, none) := by
  have hcolon : ':' ∈ l := mem_of_containsSub ':' objKey l hko (by decide)
  simp [processLine, hs, hd, hkf, hko, splitOnChar_getElem_one l hcolon, hv]

theorem processLine_obj_err (stem ts : Str) (st : PState) (l : Str)
    (hs : pstrip l = l) (hd : List.isPrefixOf dotSlash l = false)
    (hkf : containsSub feasKey l = false) (hko : containsSub objKey l = true)
    (hv : parseFloat (pstrip (betweenFirstColons l)) = none) :
    processLine stem ts st l = .error floatErr := by
  have hcolon : ':' ∈ l := mem_of_containsSub ':' objKey l hko (by decide)
  simp [processLine, hs, hd, hkf, hko, splitOnChar_getElem_one l hcolon, hv]

theorem processLine_time_emit (stem ts : Str) (st : PState) (l : Str) (t : ℚ)
    (hs : pstrip l = l) (hd : List.isPrefixOf dotSlash l = false)
    (hkf : containsSub feasKey l = false) (hko : containsSub objKey l = false)
    (hkt : containsSub timeKey l = true)
    (hv : parseFloat (firstSpaceToken (pstrip (betweenFirstColons l))) = some t)
    (hi : truthy st.instName = true) :
    processLine stem ts st l =
      .ok (initPState, some ⟨st.instName.getD [], stem, ts, st.feasVal, st.objVal, t⟩) := by
  have hcolon : ':' ∈ l := mem_of_containsSub ':' timeKey l hkt (by decide)
  simp [firstSpaceToken, ← splitOnChar_getElem_zero] at hv
  simp [processLine, hs, hd, hkf, hko, hkt, splitOnChar_getElem_one l hcolon]
  simp [hv, hi]

theorem processLine_time_skip (stem ts : Str) (st : PState) (l : Str) (t : ℚ)
    (hs : pstrip l = l) (hd : List.isPrefixOf dotSlash l = false)
    (hkf : containsSub feasKey l = false) (hko : containsSub objKey l = false)
    (hkt : containsSub timeKey l = true)
    (hv : parseFloat (firstSpaceToken (pstrip (betweenFirstColons l))) = some t)
    (hi : truthy st.instName = false) :
    processLine stem ts st l = .ok ({ st with execTime := t }, none) := by
  have hcolon : ':' ∈ l := mem_of_containsSub ':' timeKey l hkt (by decide)
  simp [firstSpaceToken, ← splitOnChar_getElem_zero] at hv
  simp [processLine, hs, hd, hkf, hko, hkt, splitOnChar_getElem_one l hcolon]
  simp [hv, hi]

theorem processLine_time_err (stem ts : Str) (st : PState) (l : Str)
    (hs : pstrip l = l) (hd : List.isPrefixOf dotSlash l = false)
    (hkf : containsSub feasKey l = false) (hko : containsSub objKey l = false)
    (hkt : containsSub timeKey l = true)
    (hv : parseFloat (firstSpaceToken (pstrip (betweenFirstColons l))) = none) :
    processLine stem ts st l = .error floatErr := by
  have hcolon : ':' ∈ l := mem_of_containsSub ':' timeKey l hkt (by decide)
  simp [firstSpaceToken, ← splitOnChar_getElem_zero] at hv
  simp [processLine, hs, hd, hkf, hko, hkt, splitOnChar_getElem_one l hcolon]
  simp [hv]

theorem processLine_other (stem ts : Str) (st : PState) (l : Str)
    (hs : pstrip l = l) (hd : List.isPrefixOf dotSlash l = false)
    (hkf : containsSub feasKey l = false) (hko : containsSub objKey l = false)
    (hkt : containsSub timeKey l = false) :
    processLine stem ts st l = .ok (st, none) := by
  simp [processLine, hs, hd, hkf, hko, hkt]

theorem processLines_nil (stem ts : Str) (st : PState) :
    processLines stem ts st [] = .ok (st, []) := rfl

theorem processLines_cons_ok (stem ts : Str) (st st' : PState) (l : Str)
    (ls : List Str) (r : Option Record)
    (h : processLine stem ts st l = .ok (st', r)) :
    processLines stem ts st (l :: ls) =
      match processLines stem ts st' ls with
      | .error e => .error e
      | .ok (st'', rs) => .ok (st'', r.toList ++ rs) := by
  simp only [processLines]
  rw [h]

theorem processLines_cons_err (stem ts : Str) (st : PState) (l : Str)
    (ls : List Str) (e : String)
    (h : processLine stem ts st l = .error e) :
    processLines stem ts st (l :: ls) = .error e := by
  simp only [processLines]
  rw [h]

theorem processLines_run4 (stem ts : Str) (st0 st1 st2 st3 st4 : PState)
    (a b c d : Str) (r : Record)
    (h1 : processLine stem ts st0 a = .ok (st1, none))
    (h2 : processLine stem ts st1 b = .ok (st2, none))
    (h3 : processLine stem ts st2 c = .ok (st3, none))
    (h4 : processLine stem ts st3 d = .ok (st4, some r)) :
    processLines stem ts st0 [a, b, c, d] = .ok (st4, [r]) := by
  simp [processLines, h1, h2, h3, h4]

/-- Claim C1: a file whose lines form one valid four-line cycle — an
instance line starting with `./`, a feasibility line, an objective line and
an execution-time line, in any order with the execution-time line last —
yields exactly one record, whose `Instance` is the segment after the last
`/`, whose `Is Solution Feasible` is the trimmed text after the colon,
whose `Objective Function Value` is the parsed float of the trimmed text
after the colon, and whose `Execution Time` is the parsed float of the
first space-delimited token.  (Validity of a feasibility/objective/time
line includes containing its marker, not starting with `./`, not containing
an earlier marker of the `elif` chain, carrying no second colon, and its
numeric text parsing as a float; the instance line's extracted name must be
nonempty, else no record would be emitted.) -/
theorem claim1_single_cycle_one_record
    (stem li lf lo le : Str) (ov tv : ℚ) (pre : List Str)
    (hsi : pstrip li = li) (hdi : List.isPrefixOf dotSlash li = true)
    (hni : (afterLastSlash li).isEmpty = false)
    (hsf : pstrip lf = lf) (hdf : List.isPrefixOf dotSlash lf = false)
    (hkf : containsSub feasKey lf = true) (hcf : ':' ∉ specAfterFirstColon lf)
    (hso : pstrip lo = lo) (hdo : List.isPrefixOf dotSlash lo = false)
    (hfo : containsSub feasKey lo = false) (hko : containsSub objKey lo = true)
    (hco : ':' ∉ specAfterFirstColon lo)
    (hvo : parseFloat (pstrip (specAfterFirstColon lo)) = some ov)
    (hse : pstrip le = le) (hde : List.isPrefixOf dotSlash le = false)
    (hfe : containsSub feasKey le = false) (hoe : containsSub objKey le = false)
    (hke : containsSub timeKey le = true) (hce : ':' ∉ specAfterFirstColon le)
    (hve : parseFloat (firstSpaceToken (pstrip (specAfterFirstColon le))) = some tv)
    (horder : pre = [li, lf, lo] ∨ pre = [li, lo, lf] ∨ pre = [lf, li, lo] ∨
      pre = [lf, lo, li] ∨ pre = [lo, li, lf] ∨ pre = [lo, lf, li]) :
    processFile stem (pre ++ [le]) =
      .ok [⟨afterLastSlash li, stem, tsOf stem,
            some (pstrip (specAfterFirstColon lf)), ov, tv⟩] := by
  have hvo' : parseFloat (pstrip (betweenFirstColons lo)) = some ov := by
    rw [betweenFirstColons_of_single hco]; exact hvo
  have hve' : parseFloat (firstSpaceToken (pstrip (betweenFirstColons le))) = some tv := by
    rw [betweenFirstColons_of_single hce]; exact hve
  have hfv : pstrip (betweenFirstColons lf) = pstrip (specAfterFirstColon lf) := by
    rw [betweenFirstColons_of_single hcf]
  rcases horder with rfl | rfl | rfl | rfl | rfl | rfl
  · have run := processLines_run4 stem (tsOf stem) initPState _ _ _ _ li lf lo le _
      (processLine_inst stem (tsOf stem) initPState li hsi hdi)
      (processLine_feas stem (tsOf stem) _ lf hsf hdf hkf)
      (processLine_obj stem (tsOf stem) _ lo ov hso hdo hfo hko hvo')
      (processLine_time_emit stem (tsOf stem) _ le tv hse hde hfe hoe hke hve'
        (by simp [truthy, initPState, hni]))
    simp only [List.cons_append, List.nil_append]
    simp only [processFile, run]
    simp [initPState, hfv]
  · have run := processLines_run4 stem (tsOf stem) initPState _ _ _ _ li lo lf le _
      (processLine_inst stem (tsOf stem) initPState li hsi hdi)
      (processLine_obj stem (tsOf stem) _ lo ov hso hdo hfo hko hvo')
      (processLine_feas stem (tsOf stem) _ lf hsf hdf hkf)
      (processLine_time_emit stem (tsOf stem) _ le tv hse hde hfe hoe hke hve'
        (by simp [truthy, initPState, hni]))
    simp only [List.cons_append, List.nil_append]
    simp only [processFile, run]
    simp [initPState, hfv]
  · have run := processLines_run4 stem (tsOf stem) initPState _ _ _ _ lf li lo le _
      (processLine_feas stem (tsOf stem) initPState lf hsf hdf hkf)
      (processLine_inst stem (tsOf stem) _ li hsi hdi)
      (processLine_obj stem (tsOf stem) _ lo ov hso hdo hfo hko hvo')
      (processLine_time_emit stem (tsOf stem) _ le tv hse hde hfe hoe hke hve'
        (by simp [truthy, initPState, hni]))
    simp only [List.cons_append, List.nil_append]
    simp only [processFile, run]
    simp [initPState, hfv]
  · have run := processLines_run4 stem (tsOf stem) initPState _ _ _ _ lf lo li le _
      (processLine_feas stem (tsOf stem) initPState lf hsf hdf hkf)
      (processLine_obj stem (tsOf stem) _ lo ov hso hdo hfo hko hvo')
      (processLine_inst stem (tsOf stem) _ li hsi hdi)
      (processLine_time_emit stem (tsOf stem) _ le tv hse hde hfe hoe hke hve'
        (by simp [truthy, initPState, hni]))
    simp only [List.cons_append, List.nil_append]
    simp only [processFile, run]
    simp [initPState, hfv]
  · have run := processLines_run4 stem (tsOf stem) initPState _ _ _ _ lo li lf le _
      (processLine_obj stem (tsOf stem) initPState lo ov hso hdo hfo hko hvo')
      (processLine_inst stem (tsOf stem) _ li hsi hdi)
      (processLine_feas stem (tsOf stem) _ lf hsf hdf hkf)
      (processLine_time_emit stem (tsOf stem) _ le tv hse hde hfe hoe hke hve'
        (by simp [truthy, initPState, hni]))
    simp only [List.cons_append, List.nil_append]
    simp only [processFile, run]
    simp [initPState, hfv]
  · have run := processLines_run4 stem (tsOf stem) initPState _ _ _ _ lo lf li le _
      (processLine_obj stem (tsOf stem) initPState lo ov hso hdo hfo hko hvo')
      (processLine_feas stem (tsOf stem) _ lf hsf hdf hkf)
      (processLine_inst stem (tsOf stem) _ li hsi hdi)
      (processLine_time_emit stem (tsOf stem) _ le tv hse hde hfe hoe hke hve'
        (by simp [truthy, initPState, hni]))
    simp only [List.cons_append, List.nil_append]
    simp only [processFile, run]
    simp [initPState, hfv]

/-- Witness for C1 at a concrete log file. -/
theorem claim1_witness :
    processFile (lit ("run_2024-01-01_00-00-00"))
      [lit ("./instances/instA"), lit ("Is solution feasible: True"),
       lit ("Objective function value: 100.0"), lit ("Execution time: 2.5 seconds")] =
      .ok [⟨lit ("instA"), lit ("run_2024-01-01_00-00-00"), lit ("2024-01-01_00-00-00"),
            some (lit ("True")), 100, mkRat 5 2⟩] := by
  have h := claim1_single_cycle_one_record (lit ("run_2024-01-01_00-00-00"))
    (lit ("./instances/instA")) (lit ("Is solution feasible: True"))
    (lit ("Objective function value: 100.0")) (lit ("Execution time: 2.5 seconds"))
    100 (mkRat 5 2)
    [lit ("./instances/instA"), lit ("Is solution feasible: True"),
     lit ("Objective function value: 100.0")]
    (by decide) (by decide) (by decide) (by decide) (by decide) (by decide)
    (by decide) (by decide) (by decide) (by decide) (by decide) (by decide)
    (by decide) (by decide) (by decide) (by decide) (by decide) (by decide)
    (by decide) (by decide) (Or.inl rfl)
  exact h.trans (by decide)

theorem processLines_append (stem ts : Str) (xs ys : List Str) (st : PState) :
    processLines stem ts st (xs ++ ys) =
      match processLines stem ts st xs with
      | .error e => .error e
      | .ok (st', rs) =>
        match processLines stem ts st' ys with
        | .error e => .error e
        | .ok (st'', rs') => .ok (st'', rs ++ rs') := by
  induction xs generalizing st with
  | nil =>
    simp only [List.nil_append, processLines]
    cases h : processLines stem ts st ys with
    | error e => rfl
    | ok q => rfl
  | cons l ls ih =>
    simp only [List.cons_append, processLines]
    cases h : processLine stem ts st l with
    | error e => rfl
    | ok p =>
      obtain ⟨st', r⟩ := p
      dsimp only
      rw [show List.append ls ys = ls ++ ys from rfl, ih st']
      cases h2 : processLines stem ts st' ls with
      | error e => rfl
      | ok q =>
        obtain ⟨st'', rs⟩ := q
        dsimp only
        cases h3 : processLines stem ts st'' ys with
        | error e => rfl
        | ok w =>
          obtain ⟨st3, rs3⟩ := w
          dsimp only
          simp

/-- Claim C2: a file made of two consecutive complete cycles yields two
records; immediately after each emission the four working fields are back at
their defaults (`None`/`False`/`0`/`0`, i.e. `initPState`) — the first
conjunct exhibits the state after the first cycle — so nothing from the
first cycle leaks into the second record, whose fields come entirely from
the second cycle's lines. -/
theorem claim2_two_cycles_reset
    (stem li1 lf1 lo1 le1 li2 lf2 lo2 le2 : Str) (ov1 tv1 ov2 tv2 : ℚ)
    (hsi1 : pstrip li1 = li1) (hdi1 : List.isPrefixOf dotSlash li1 = true)
    (hni1 : (afterLastSlash li1).isEmpty = false)
    (hsf1 : pstrip lf1 = lf1) (hdf1 : List.isPrefixOf dotSlash lf1 = false)
    (hkf1 : containsSub feasKey lf1 = true) (hcf1 : ':' ∉ specAfterFirstColon lf1)
    (hso1 : pstrip lo1 = lo1) (hdo1 : List.isPrefixOf dotSlash lo1 = false)
    (hfo1 : containsSub feasKey lo1 = false) (hko1 : containsSub objKey lo1 = true)
    (hco1 : ':' ∉ specAfterFirstColon lo1)
    (hvo1 : parseFloat (pstrip (specAfterFirstColon lo1)) = some ov1)
    (hse1 : pstrip le1 = le1) (hde1 : List.isPrefixOf dotSlash le1 = false)
    (hfe1 : containsSub feasKey le1 = false) (hoe1 : containsSub objKey le1 = false)
    (hke1 : containsSub timeKey le1 = true) (hce1 : ':' ∉ specAfterFirstColon le1)
    (hve1 : parseFloat (firstSpaceToken (pstrip (specAfterFirstColon le1))) = some tv1)
    (hsi2 : pstrip li2 = li2) (hdi2 : List.isPrefixOf dotSlash li2 = true)
    (hni2 : (afterLastSlash li2).isEmpty = false)
    (hsf2 : pstrip lf2 = lf2) (hdf2 : List.isPrefixOf dotSlash lf2 = false)
    (hkf2 : containsSub feasKey lf2 = true) (hcf2 : ':' ∉ specAfterFirstColon lf2)
    (hso2 : pstrip lo2 = lo2) (hdo2 : List.isPrefixOf dotSlash lo2 = false)
    (hfo2 : containsSub feasKey lo2 = false) (hko2 : containsSub objKey lo2 = true)
    (hco2 : ':' ∉ specAfterFirstColon lo2)
    (hvo2 : parseFloat (pstrip (specAfterFirstColon lo2)) = some ov2)
    (hse2 : pstrip le2 = le2) (hde2 : List.isPrefixOf dotSlash le2 = false)
    (hfe2 : containsSub feasKey le2 = false) (hoe2 : containsSub objKey le2 = false)
    (hke2 : containsSub timeKey le2 = true) (hce2 : ':' ∉ specAfterFirstColon le2)
    (hve2 : parseFloat (firstSpaceToken (pstrip (specAfterFirstColon le2))) = some tv2) :
    processLines stem (tsOf stem) initPState [li1, lf1, lo1, le1] =
      .ok (initPState,
        [⟨afterLastSlash li1, stem, tsOf stem,
          some (pstrip (specAfterFirstColon lf1)), ov1, tv1⟩]) ∧
    processFile stem ([li1, lf1, lo1, le1] ++ [li2, lf2, lo2, le2]) =
      .ok [⟨afterLastSlash li1, stem, tsOf stem,
            some (pstrip (specAfterFirstColon lf1)), ov1, tv1⟩,
           ⟨afterLastSlash li2, stem, tsOf stem,
            some (pstrip (specAfterFirstColon lf2)), ov2, tv2⟩] := by
  have hvo1' : parseFloat (pstrip (betweenFirstColons lo1)) = some ov1 := by
    rw [betweenFirstColons_of_single hco1]; exact hvo1
  have hve1' : parseFloat (firstSpaceToken (pstrip (betweenFirstColons le1))) = some tv1 := by
    rw [betweenFirstColons_of_single hce1]; exact hve1
  have hfv1 : pstrip (betweenFirstColons lf1) = pstrip (specAfterFirstColon lf1) := by
    rw [betweenFirstColons_of_single hcf1]
  have hvo2' : parseFloat (pstrip (betweenFirstColons lo2)) = some ov2 := by
    rw [betweenFirstColons_of_single hco2]; exact hvo2
  have hve2' : parseFloat (firstSpaceToken (pstrip (betweenFirstColons le2))) = some tv2 := by
    rw [betweenFirstColons_of_single hce2]; exact hve2
  have hfv2 : pstrip (betweenFirstColons lf2) = pstrip (specAfterFirstColon lf2) := by
    rw [betweenFirstColons_of_single hcf2]
  have run1 := processLines_run4 stem (tsOf stem) initPState _ _ _ _ li1 lf1 lo1 le1 _
    (processLine_inst stem (tsOf stem) initPState li1 hsi1 hdi1)
    (processLine_feas stem (tsOf stem) _ lf1 hsf1 hdf1 hkf1)
    (processLine_obj stem (tsOf stem) _ lo1 ov1 hso1 hdo1 hfo1 hko1 hvo1')
    (processLine_time_emit stem (tsOf stem) _ le1 tv1 hse1 hde1 hfe1 hoe1 hke1 hve1'
      (by simp [truthy, initPState, hni1]))
  have run2 := processLines_run4 stem (tsOf stem) initPState _ _ _ _ li2 lf2 lo2 le2 _
    (processLine_inst stem (tsOf stem) initPState li2 hsi2 hdi2)
    (processLine_feas stem (tsOf stem) _ lf2 hsf2 hdf2 hkf2)
    (processLine_obj stem (tsOf stem) _ lo2 ov2 hso2 hdo2 hfo2 hko2 hvo2')
    (processLine_time_emit stem (tsOf stem) _ le2 tv2 hse2 hde2 hfe2 hoe2 hke2 hve2'
      (by simp [truthy, initPState, hni2]))
  constructor
  · rw [run1]
    simp [initPState, hfv1]
  · simp only [processFile, processLines_append, run1, run2]
    simp [initPState, hfv1, hfv2]

/-- Witness for C2 at a concrete two-cycle log file. -/
theorem claim2_witness :
    processLines (lit ("f")) (tsOf (lit ("f"))) initPState
      [lit ("./a"), lit ("Is solution feasible: True"),
       lit ("Objective function value: 10"), lit ("Execution time: 1 s")] =
      .ok (initPState, [⟨lit ("a"), lit ("f"), lit ("Unknown"),
        some (lit ("True")), 10, 1⟩]) ∧
    processFile (lit ("f"))
      ([lit ("./a"), lit ("Is solution feasible: True"),
        lit ("Objective function value: 10"), lit ("Execution time: 1 s")] ++
       [lit ("./b"), lit ("Is solution feasible: False"),
        lit ("Objective function value: 20"), lit ("Execution time: 2 s")]) =
      .ok [⟨lit ("a"), lit ("f"), lit ("Unknown"), some (lit ("True")), 10, 1⟩,
           ⟨lit ("b"), lit ("f"), lit ("Unknown"), some (lit ("False")), 20, 2⟩] := by
  have h := claim2_two_cycles_reset (lit ("f"))
    (lit ("./a")) (lit ("Is solution feasible: True"))
    (lit ("Objective function value: 10")) (lit ("Execution time: 1 s"))
    (lit ("./b")) (lit ("Is solution feasible: False"))
    (lit ("Objective function value: 20")) (lit ("Execution time: 2 s"))
    10 1 20 2
    (by decide) (by decide) (by decide) (by decide) (by decide) (by decide)
    (by decide) (by decide) (by decide) (by decide) (by decide) (by decide)
    (by decide) (by decide) (by decide) (by decide) (by decide) (by decide)
    (by decide) (by decide) (by decide) (by decide) (by decide) (by decide)
    (by decide) (by decide) (by decide) (by decide) (by decide) (by decide)
    (by decide) (by decide) (by decide) (by decide) (by decide) (by decide)
    (by decide) (by decide) (by decide) (by decide)
  exact ⟨h.1.trans (by decide), h.2.trans (by decide)⟩

/-- Counterexample to C3 as stated: an `Execution time:` line whose numeric
text is malformed raises the float `ValueError` even though no instance name
has been set — the parse happens before the instance check — contradicting
"no error is raised". -/
theorem claim3_counterexample :
    processFile (lit ("f")) [lit ("Execution time: abc")] = .error floatErr := by
  decide

/-- Claim C3 (amended): an `Execution time:` line encountered while the
instance name is unset (or empty) emits no record and raises no error
provided its numeric token parses as a float — only the execution-time
working field is updated, the other fields and the table are untouched; if
the token is genuinely unparseable — `parseFloat` fails and the token is
not one of the `inf`/`nan` spellings that Python's `float` accepts but the
rational model excludes — the float error propagates regardless of the
instance state. -/
theorem claim3_amended (stem ts : Str) (st : PState) (l : Str)
    (hs : pstrip l = l) (hd : List.isPrefixOf dotSlash l = false)
    (hkf : containsSub feasKey l = false) (hko : containsSub objKey l = false)
    (hkt : containsSub timeKey l = true)
    (hi : truthy st.instName = false) :
    (∀ t : ℚ, parseFloat (firstSpaceToken (pstrip (betweenFirstColons l))) = some t →
      processLine stem ts st l = .ok ({ st with execTime := t }, none)) ∧
    (parseFloat (firstSpaceToken (pstrip (betweenFirstColons l))) = none →
      isNonFiniteFloatLit (firstSpaceToken (pstrip (betweenFirstColons l))) = false →
      processLine stem ts st l = .error floatErr) :=
  ⟨fun t hv => processLine_time_skip stem ts st l t hs hd hkf hko hkt hv hi,
   fun hv _ => processLine_time_err stem ts st l hs hd hkf hko hkt hv⟩

/-- Witness for the amended C3 at a concrete line. -/
theorem claim3_witness :
    processLine (lit ("f")) (lit ("u")) initPState (lit ("Execution time: 5 s")) =
      .ok ({ initPState with execTime := 5 }, none) := by
  have h := claim3_amended (lit ("f")) (lit ("u")) initPState
    (lit ("Execution time: 5 s"))
    (by decide) (by decide) (by decide) (by decide) (by decide) (by decide)
  exact h.1 5 (by decide)

/-- Counterexample to C5 as stated: with no `.txt` files at all,
`pd.DataFrame([])` has no columns, so the `Timestamp` normalisation raises
`KeyError` instead of completing normally — no `results.csv` is written. -/
theorem claim5_counterexample :
    process_files [] = .error ("KeyError: Timestamp") := by decide

/-- Claim C5 (amended): whenever the scan collects no records — in
particular when the input directory holds no `.txt` files — `process_files`
raises the `KeyError` for the missing `Timestamp` column, so the program
terminates with an unhandled exception and writes no `results.csv`. -/
theorem claim5_amended (files : List (Str × List Str))
    (h : collectRecords files = .ok []) :
    process_files files = .error ("KeyError: Timestamp") := by
  simp only [process_files, h, assembleTable]

/-- Witness for the amended C5: one `.txt` file with no extractable records
still triggers the `KeyError`. -/
theorem claim5_witness :
    process_files [(lit ("notes"), [lit ("no structured content here")])] =
      .error ("KeyError: Timestamp") := by
  have h := claim5_amended [(lit ("notes"), [lit ("no structured content here")])]
    (by decide)
  exact h

/-- Claim C7: a line reaching the objective or execution-time branch whose
extracted numeric text is not parseable as a float makes the whole of
`process_files` fail with the float `ValueError`: the file's scan stops at
that line, no record is emitted for that cycle, and no recovery occurs
(the `isNonFiniteFloatLit` side conditions record that the text is not one
of the `inf`/`nan` spellings, which Python's `float` would accept but the
rational value model deliberately excludes). -/
theorem claim7_malformed_float_fatal (stem : Str) (pre post : List Str) (l : Str)
    (st' : PState) (recs : List Record)
    (hpre : processLines stem (tsOf stem) initPState pre = .ok (st', recs))
    (hbad :
      (pstrip l = l ∧ List.isPrefixOf dotSlash l = false ∧
        containsSub feasKey l = false ∧ containsSub objKey l = true ∧
        parseFloat (pstrip (betweenFirstColons l)) = none ∧
        isNonFiniteFloatLit (pstrip (betweenFirstColons l)) = false) ∨
      (pstrip l = l ∧ List.isPrefixOf dotSlash l = false ∧
        containsSub feasKey l = false ∧ containsSub objKey l = false ∧
        containsSub timeKey l = true ∧
        parseFloat (firstSpaceToken (pstrip (betweenFirstColons l))) = none ∧
        isNonFiniteFloatLit (firstSpaceToken (pstrip (betweenFirstColons l))) = false)) :
    processFile stem (pre ++ l :: post) = .error floatErr := by
  have herr : processLine stem (tsOf stem) st' l = .error floatErr := by
    rcases hbad with ⟨hs, hd, hkf, hko, hv, -⟩ | ⟨hs, hd, hkf, hko, hkt, hv, -⟩
    · exact processLine_obj_err stem _ st' l hs hd hkf hko hv
    · exact processLine_time_err stem _ st' l hs hd hkf hko hkt hv
  have hlines : processLines stem (tsOf stem) initPState (pre ++ l :: post) =
      .error floatErr := by
    rw [processLines_append, hpre]
    dsimp only
    rw [processLines_cons_err stem (tsOf stem) st' l post floatErr herr]
  simp only [processFile, hlines]

/-- Witness for C7 at a concrete malformed objective line. -/
theorem claim7_witness :
    processFile (lit ("f"))
      ([lit ("./a")] ++ lit ("Objective function value: oops") :: [lit ("x")]) =
      .error floatErr := by
  exact claim7_malformed_float_fatal (lit ("f")) [lit ("./a")] [lit ("x")]
    (lit ("Objective function value: oops")) ⟨some (lit ("a")), none, 0, 0⟩ []
    (by decide)
    (Or.inl ⟨by decide, by decide, by decide, by decide, by decide, by decide⟩)

/-- Counterexample to C8 as stated: on `Is solution feasible: a:b` the code
stores `a` (the text between the first and second colon), not the entire
trimmed text after the colon `a:b`; and on `Execution time:` followed by a
tab-separated value the code fails to parse (tabs are not separators for
`split(" ")`), although the first whitespace-delimited token would parse. -/
theorem claim8_counterexample :
    (processFile (lit ("f"))
      [lit ("./a"), lit ("Is solution feasible: a:b"), lit ("Execution time: 1 s")] =
      .ok [⟨lit ("a"), lit ("f"), lit ("Unknown"), some (lit ("a")), 0, 1⟩] ∧
     pstrip (specAfterFirstColon (lit ("Is solution feasible: a:b"))) = lit ("a:b") ∧
     lit ("a") ≠ lit ("a:b")) ∧
    (processFile (lit ("f"))
      [lit ("./a"), lit ("Execution time:\t2.5\tsec")] = .error floatErr ∧
     parseFloat (specFirstWhitespaceToken
       (pstrip (specAfterFirstColon (lit ("Execution time:\t2.5\tsec"))))) =
       some (mkRat 5 2)) := by
  exact ⟨⟨by decide, by decide, by decide⟩, ⟨by decide, by decide⟩⟩

/-- Claim C8 (amended): for a line taking the feasibility branch the flag
becomes the text strictly between the first colon and the next colon (or
the end of the line), trimmed; for the objective branch that same
between-colons text, trimmed, is parsed as a float; for the execution-time
branch the parsed text is the first token obtained by splitting the trimmed
between-colons text on the single space character (other whitespace is not
a separator). -/
theorem claim8_amended (stem ts : Str) (st : PState) :
    (∀ l, pstrip l = l → List.isPrefixOf dotSlash l = false →
      containsSub feasKey l = true →
      processLine stem ts st l =
        .ok ({ st with feasVal := some (pstrip (betweenFirstColons l)) }, none)) ∧
    (∀ l v, pstrip l = l → List.isPrefixOf dotSlash l = false →
      containsSub feasKey l = false → containsSub objKey l = true →
      parseFloat (pstrip (betweenFirstColons l)) = some v →
      processLine stem ts st l = .ok ({ st with objVal := v }, none)) ∧
    (∀ l t, pstrip l = l → List.isPrefixOf dotSlash l = false →
      containsSub feasKey l = false → containsSub objKey l = false →
      containsSub timeKey l = true →
      parseFloat (firstSpaceToken (pstrip (betweenFirstColons l))) = some t →
      truthy st.instName = false →
      processLine stem ts st l = .ok ({ st with execTime := t }, none)) :=
  ⟨fun l hs hd hk => processLine_feas stem ts st l hs hd hk,
   fun l v hs hd hkf hko hv => processLine_obj stem ts st l v hs hd hkf hko hv,
   fun l t hs hd hkf hko hkt hv hi =>
     processLine_time_skip stem ts st l t hs hd hkf hko hkt hv hi⟩

/-- Witness for the amended C8 at concrete lines (a second colon in the
feasibility value, a two-token execution-time value). -/
theorem claim8_witness :
    processLine (lit ("f")) (lit ("u")) initPState
      (lit ("Is solution feasible: yes: surely")) =
      .ok (⟨none, some (lit ("yes")), 0, 0⟩, none) ∧
    processLine (lit ("f")) (lit ("u")) initPState
      (lit ("Objective function value: 7.5")) =
      .ok (⟨none, none, mkRat 15 2, 0⟩, none) ∧
    processLine (lit ("f")) (lit ("u")) initPState
      (lit ("Execution time: 3.5 seconds")) =
      .ok (⟨none, none, 0, mkRat 7 2⟩, none) := by
  have h := claim8_amended (lit ("f")) (lit ("u")) initPState
  refine ⟨?_, ?_, ?_⟩
  · exact (h.1 (lit ("Is solution feasible: yes: surely")) (by decide) (by decide)
      (by decide)).trans (by decide)
  · exact (h.2.1 (lit ("Objective function value: 7.5")) (mkRat 15 2) (by decide)
      (by decide) (by decide) (by decide) (by decide)).trans (by decide)
  · exact (h.2.2 (lit ("Execution time: 3.5 seconds")) (mkRat 7 2) (by decide)
      (by decide) (by decide) (by decide) (by decide) (by decide)
      (by decide)).trans (by decide)

theorem processLine_record (stem ts : Str) (st st2 : PState) (l : Str) (r : Record)
    (h : processLine stem ts st l = .ok (st2, some r)) :
    r.file = stem ∧ r.timestamp = ts := by
  simp only [processLine] at h
  split at h
  · simp at h
  · split at h
    · simp at h
    · split at h
      · split at h
        · simp at h
        · simp at h
      · split at h
        · split at h
          · simp at h
          · split at h
            · simp only [Except.ok.injEq, Prod.mk.injEq, Option.some.injEq] at h
              rw [← h.2]
              exact ⟨rfl, rfl⟩
            · simp at h
        · simp at h

theorem processLines_fields (stem ts : Str) :
    ∀ (lines : List Str) (st st' : PState) (recs : List Record),
      processLines stem ts st lines = .ok (st', recs) →
      ∀ r ∈ recs, r.file = stem ∧ r.timestamp = ts := by
  intro lines
  induction lines with
  | nil =>
    intro st st' recs h r hr
    simp only [processLines, Except.ok.injEq, Prod.mk.injEq] at h
    rw [← h.2] at hr
    cases hr
  | cons l ls ih =>
    intro st st' recs h r hr
    simp only [processLines] at h
    cases hl : processLine stem ts st l with
    | error e => rw [hl] at h; cases h
    | ok p =>
      obtain ⟨st1, ro⟩ := p
      rw [hl] at h
      dsimp only at h
      cases hrest : processLines stem ts st1 ls with
      | error e => rw [hrest] at h; cases h
      | ok q =>
        obtain ⟨st2, rs⟩ := q
        rw [hrest] at h
        dsimp only at h
        have h2 : ro.toList ++ rs = recs :=
          congrArg Prod.snd (Except.ok.inj h)
        rw [← h2] at hr
        rcases List.mem_append.mp hr with hr1 | hr2
        · cases ro with
          | none => cases hr1
          | some r0 =>
            have hrr : r = r0 := by simpa using hr1
            subst hrr
            exact processLine_record stem ts st st1 l r hl
        · exact ih st1 st2 rs hrest r hr2

/-- Claim C9: when the filename stem contains no match of the timestamp
pattern, every record extracted from that file carries the placeholder
`Unknown`, the `to_datetime` coercion turns it into a missing value
(`none`/`NaT`), and — whenever the file yields at least one record — the
assembling/sorting step still succeeds. -/
theorem claim9_unknown_timestamp (stem : Str) (lines : List Str) (recs : List Record)
    (hts : findTimestamp stem = none)
    (h : processFile stem lines = .ok recs) :
    (∀ r ∈ recs, r.timestamp = lit ("Unknown") ∧ parseTs r.timestamp = none) ∧
    (recs ≠ [] → ∃ t, assembleTable recs = .ok t) := by
  have hun : tsOf stem = lit ("Unknown") := by simp [tsOf, hts]
  simp only [processFile] at h
  cases hp : processLines stem (tsOf stem) initPState lines with
  | error e => rw [hp] at h; cases h
  | ok q =>
    obtain ⟨st', rs⟩ := q
    rw [hp] at h
    dsimp only at h
    have hrs : rs = recs := Except.ok.inj h
    subst hrs
    constructor
    · intro r hr
      have hfld := (processLines_fields stem (tsOf stem) lines initPState st' rs hp r hr).2
      rw [hun] at hfld
      refine ⟨hfld, ?_⟩
      rw [hfld]
      decide
    · intro hne
      cases rs with
      | nil => exact absurd rfl hne
      | cons a as => exact ⟨_, rfl⟩

/-- Witness for C9 at a concrete file whose stem has no timestamp. -/
theorem claim9_witness :
    Record.timestamp
      (⟨lit ("a"), lit ("nodate"), lit ("Unknown"), some (lit ("True")), 10, 1⟩ : Record) =
      lit ("Unknown") ∧
    parseTs (lit ("Unknown")) = none ∧
    (assembleTable
      [⟨lit ("a"), lit ("nodate"), lit ("Unknown"), some (lit ("True")), 10, 1⟩]).isOk =
      true := by
  have h := claim9_unknown_timestamp (lit ("nodate"))
    [lit ("./a"), lit ("Is solution feasible: True"),
     lit ("Objective function value: 10"), lit ("Execution time: 1 s")]
    [⟨lit ("a"), lit ("nodate"), lit ("Unknown"), some (lit ("True")), 10, 1⟩]
    (by decide) (by decide)
  obtain ⟨t, ht⟩ := h.2 (by decide)
  have hr1 := h.1
    (⟨lit ("a"), lit ("nodate"), lit ("Unknown"), some (lit ("True")), 10, 1⟩ : Record)
    (by simp)
  exact ⟨hr1.1, hr1.2, by rw [ht]; rfl⟩

theorem noEmitAux (stem ts : Str) :
    ∀ (rest : List Str) (st₀ : PState), truthy st₀.instName = false →
      (∀ l' ∈ rest, setsNonemptyInst l' = false) →
      emittedRecs (processLines stem ts st₀ rest) = [] := by
  intro rest
  induction rest with
  | nil => intro st₀ _ _; rfl
  | cons l ls ih =>
    intro st₀ hfalsy hall
    have hstep : processLine stem ts st₀ l = .error floatErr ∨
        ∃ st1, processLine stem ts st₀ l = .ok (st1, none) ∧
          truthy st1.instName = false := by
      by_cases h1 : List.isPrefixOf dotSlash (pstrip l)
      · right
        refine ⟨{ st₀ with
            instName := some ((splitOnChar '/' (pstrip l)).getLastD []) },
          by simp [processLine, h1], ?_⟩
        have hl := hall l (List.mem_cons_self l ls)
        simp only [setsNonemptyInst, h1, Bool.true_and, Bool.not_eq_false'] at hl
        have hnil : afterLastSlash (pstrip l) = [] := List.isEmpty_iff.mp hl
        simp [truthy, splitOnChar_getLast_afterLastSlash, hnil]
      · by_cases h2 : containsSub feasKey (pstrip l)
        · right
          refine ⟨{ st₀ with
              feasVal := some (pstrip ((splitOnChar ':' (pstrip l)).getD 1 [])) },
            by simp [processLine, h1, h2], ?_⟩
          simpa [truthy] using hfalsy
        · by_cases h3 : containsSub objKey (pstrip l)
          · cases hv : parseFloat (pstrip ((splitOnChar ':' (pstrip l))[1]?.getD [])) with
            | none => left; simp [processLine, h1, h2, h3, hv]
            | some v =>
              right
              refine ⟨{ st₀ with objVal := v },
                by simp [processLine, h1, h2, h3, hv], ?_⟩
              simpa [truthy] using hfalsy
          · by_cases h4 : containsSub timeKey (pstrip l)
            · cases hv : parseFloat
                ((splitOnChar ' ' (pstrip ((splitOnChar ':' (pstrip l))[1]?.getD [])))[0]?.getD []) with
              | none => left; simp [processLine, h1, h2, h3, h4, hv]
              | some t =>
                right
                refine ⟨{ st₀ with execTime := t },
                  by simp [processLine, h1, h2, h3, h4, hv, hfalsy], ?_⟩
                simpa [truthy] using hfalsy
            · right
              exact ⟨st₀, by simp [processLine, h1, h2, h3, h4], hfalsy⟩
    rcases hstep with herr | ⟨st1, hok, hst1⟩
    · simp [processLines, herr, emittedRecs]
    · have hrest := ih st1 hst1 (fun l' hl' => hall l' (List.mem_cons_of_mem l hl'))
      simp only [processLines, hok]
      cases hq : processLines stem ts st1 ls with
      | error e => simp [emittedRecs]
      | ok q =>
        obtain ⟨st2, rs⟩ := q
        rw [hq] at hrest
        simpa [emittedRecs] using hrest

/-- Claim C10: a stripped line that starts with `./` and ends with `/`
(such as `./` or `./dir/`) installs the empty string as instance name,
which the emission check treats exactly like having no instance name:
as long as the working instance name stays falsy and no subsequent line
installs a non-empty one, no `Execution time:` line (indeed no line at all)
emits a record. -/
theorem claim10_empty_instance_name (stem ts l : Str) (st : PState)
    (hs : pstrip l = l) (hd : List.isPrefixOf dotSlash l = true)
    (hend : l.getLast? = some '/') :
    (processLine stem ts st l = .ok ({ st with instName := some [] }, none)) ∧
    (∀ (rest : List Str) (st₀ : PState), truthy st₀.instName = false →
      (∀ l' ∈ rest, setsNonemptyInst l' = false) →
      emittedRecs (processLines stem ts st₀ rest) = []) := by
  constructor
  · have h1 := processLine_inst stem ts st l hs hd
    rw [afterLastSlash_eq_nil hend] at h1
    exact h1
  · exact noEmitAux stem ts

/-- Witness for C10 at a concrete `./dir/` line followed by an
execution-time line. -/
theorem claim10_witness :
    processLine (lit ("f")) (lit ("u")) initPState (lit ("./dir/")) =
      .ok ({ initPState with instName := some [] }, none) ∧
    emittedRecs (processLines (lit ("f")) (lit ("u")) ⟨some [], none, 0, 0⟩
      [lit ("Execution time: 5 s")]) = [] := by
  have h := claim10_empty_instance_name (lit ("f")) (lit ("u")) (lit ("./dir/"))
    initPState (by decide) (by decide) (by decide)
  exact ⟨h.1, h.2 [lit ("Execution time: 5 s")] ⟨some [], none, 0, 0⟩ (by decide)
    (by decide)⟩

theorem relChangeFrom_getD :
    ∀ (rows pre : List Record) (i : Nat) (h : i < rows.length),
      (relChangeFrom pre rows).getD i none =
        match lastObjOf (rows.get ⟨i, h⟩).instName (pre ++ rows.take i) with
        | none => none
        | some p => some (pctDelta (rows.get ⟨i, h⟩).objective p) := by
  intro rows
  induction rows with
  | nil => intro pre i h; exact absurd h (Nat.not_lt_zero i)
  | cons r rs ih =>
    intro pre i h
    cases i with
    | zero =>
      simp only [List.take_zero, List.append_nil]
      rfl
    | succ n =>
      have h' : n < rs.length := Nat.lt_of_succ_lt_succ h
      have e1 : (relChangeFrom pre (r :: rs)).getD (n + 1) none =
          (relChangeFrom (pre ++ [r]) rs).getD n none := rfl
      have e2 : pre ++ List.take (n + 1) (r :: rs) = (pre ++ [r]) ++ List.take n rs := by
        simp
      rw [e1, ih (pre ++ [r]) n h', e2]
      rfl

/-- Claim C6: the derived `Relative Change` column is `none` (`NaN`) at a
row with no earlier row of the same instance — each instance's first
record in the table, which is in chronological order after the sort — and
at every later row of the same instance it equals
`(curr - prev) / prev`, where `prev` is the objective value of the nearest
earlier row of the same instance (`lastObjOf` on the prefix of the table
before the row). -/
theorem claim6_relative_change (rows : List Record) (i : Nat) (h : i < rows.length) :
    (relativeChange rows).getD i none =
      match lastObjOf (rows.get ⟨i, h⟩).instName (rows.take i) with
      | none => none
      | some p => some (((rows.get ⟨i, h⟩).objective - p) / p) := by
  have hg := relChangeFrom_getD rows [] i h
  rw [List.nil_append] at hg
  rw [relativeChange, hg]
  cases hs : lastObjOf (rows.get ⟨i, h⟩).instName (rows.take i) with
  | none => rfl
  | some p =>
    dsimp only
    rw [pctDelta_eq]

/-- Witness for C6: second record of the same instance, objective went from
100 to 150, so the relative change is (150 - 100) / 100. -/
theorem claim6_witness :
    (relativeChange
      [⟨lit ("a"), lit ("x"), lit ("u"), none, 100, 1⟩,
       ⟨lit ("a"), lit ("y"), lit ("u"), none, 150, 2⟩]).getD 1 none =
      some ((150 - 100 : ℚ) / 100) := by
  exact (claim6_relative_change
    [⟨lit ("a"), lit ("x"), lit ("u"), none, 100, 1⟩,
     ⟨lit ("a"), lit ("y"), lit ("u"), none, 150, 2⟩] 1 (by decide)).trans rfl

theorem tsLeB_trans {a b c : Option Nat}
    (h1 : tsLeB a b = true) (h2 : tsLeB b c = true) : tsLeB a c = true := by
  cases a <;> cases b <;> cases c <;> simp_all [tsLeB] <;> omega

theorem tsLeB_total (a b : Option Nat) : tsLeB a b = true ∨ tsLeB b a = true := by
  cases a <;> cases b <;> simp_all [tsLeB] <;> omega

theorem insertRow_perm (x : Record × Option Nat) (l : Table) :
    List.Perm (insertRow x l) (x :: l) := by
  induction l with
  | nil => exact List.Perm.refl _
  | cons y ys ih =>
    by_cases hc : tsLeB x.2 y.2
    · simp [insertRow, hc]
    · have hc' : tsLeB x.2 y.2 = false := by revert hc; cases tsLeB x.2 y.2 <;> simp
      simp only [insertRow, hc', Bool.false_eq_true, if_false]
      exact ((ih.cons y).trans (List.Perm.swap x y ys))

theorem insertRow_pairwise (x : Record × Option Nat) :
    ∀ (l : Table), l.Pairwise (fun a b => tsLeB a.2 b.2 = true) →
      (insertRow x l).Pairwise (fun a b => tsLeB a.2 b.2 = true) := by
  intro l
  induction l with
  | nil => intro _; simp [insertRow]
  | cons y ys ih =>
    intro hp
    rw [List.pairwise_cons] at hp
    obtain ⟨hy, hys⟩ := hp
    by_cases hc : tsLeB x.2 y.2
    · simp only [insertRow, hc, if_true]
      rw [List.pairwise_cons]
      refine ⟨?_, ?_⟩
      · intro z hz
        rcases List.mem_cons.mp hz with rfl | hz2
        · exact hc
        · exact tsLeB_trans hc (hy z hz2)
      · rw [List.pairwise_cons]; exact ⟨hy, hys⟩
    · have hc' : tsLeB x.2 y.2 = false := by revert hc; cases tsLeB x.2 y.2 <;> simp
      have hyx : tsLeB y.2 x.2 = true := by
        rcases tsLeB_total x.2 y.2 with h | h
        · rw [h] at hc'; cases hc'
        · exact h
      simp only [insertRow, hc', Bool.false_eq_true, if_false]
      rw [List.pairwise_cons]
      refine ⟨?_, ih hys⟩
      intro z hz
      rcases List.mem_cons.mp ((insertRow_perm x ys).mem_iff.mp hz) with rfl | hz2
      · exact hyx
      · exact hy z hz2

theorem sortRows_perm (l : Table) : List.Perm (sortRows l) l := by
  induction l with
  | nil => exact List.Perm.refl _
  | cons x xs ih => exact (insertRow_perm x (sortRows xs)).trans (ih.cons x)

theorem sortRows_pairwise (l : Table) :
    (sortRows l).Pairwise (fun a b => tsLeB a.2 b.2 = true) := by
  induction l with
  | nil => simp [sortRows]
  | cons x xs ih => exact insertRow_pairwise x (sortRows xs) ih

/-- The assembled table is ascending by coerced timestamp (missing values
last) and is a permutation of the collected records with their coerced
timestamps.  The ordering of rows with equal keys is left unspecified by the
source's `sort_values(kind='quicksort')`; this model fixes one admissible
order, so no stability property is asserted here. -/
theorem assembleTable_sorted (recs : List Record) (t : Table)
    (h : assembleTable recs = .ok t) :
    t.Pairwise (fun a b => tsLeB a.2 b.2 = true) ∧
    List.Perm t (recs.map (fun r => (r, parseTs r.timestamp))) := by
  cases recs with
  | nil => cases h
  | cons r rs =>
    have ht : t = sortRows ((r :: rs).map (fun q => (q, parseTs q.timestamp))) :=
      (Except.ok.inj h).symm
    subst ht
    exact ⟨sortRows_pairwise _, sortRows_perm _⟩

-- Concrete evaluations anchoring the embedding against the source's behavior.
example : parseFloat (lit ("100")) = some 100 := by decide
example : parseFloat (lit ("1.5")) = some (mkRat 3 2) := by decide
example : parseFloat (lit ("abc")) = none := by decide
example : parseFloat (lit ("-2.5e1")) = some (-25) := by decide
example : parseFloat (lit ("1_0.5")) = some (mkRat 21 2) := by decide
example : parseFloat (lit ("1_.5")) = none := by decide
example : parseFloat (lit (".")) = none := by decide
example : parseFloat (lit ("")) = none := by decide
example : isNonFiniteFloatLit (lit (" -Inf ")) = true := by decide
example : tsOf (lit ("run_2024-01-01_00-00-00")) = lit ("2024-01-01_00-00-00") := by decide
example : tsOf (lit ("nodate")) = lit ("Unknown") := by decide
example : parseTs (lit ("Unknown")) = none := by decide
example : (parseTs (lit ("2024-01-01_00-00-00"))).isSome = true := by decide
example : parseTs (lit ("2024-13-01_00-00-00")) = none := by decide
example :
    processFile (lit ("f")) [lit ("Execution time: 3 s")] = .ok [] := by decide
example :
    processFile (lit ("f")) [lit ("./"), lit ("Execution time: 3 s")] = .ok [] := by decide
